import Mathlib

/-!
Verification development for the g1-record-and-replay trajectory playback
engine and music sequence compiler.

The Python source is shallowly embedded: machine floats are modelled by
exact rationals (or reals where the code uses trigonometric easing),
Python strings by lists of characters, dictionaries by association lists,
and raised exceptions by `Except` error values.  Filesystem facts that the
code queries (episode file existence) are snapshot fields of the
configuration environment.
-/

namespace G1RR

/-! ## Episode data model (replay.py)

An episode is the data `Replayer` loads: a list of frame timestamps and the
per-frame joint position vectors. -/

structure Episode where
  timestamps : List ℚ
  positions : List (List ℚ)
  deriving DecidableEq

/-- A valid episode per the data-model invariants: non-empty, one position
vector per timestamp, first timestamp `0`, timestamps strictly increasing,
all position vectors of equal length. -/
def Episode.valid (e : Episode) : Prop :=
  e.timestamps ≠ [] ∧
  e.timestamps.length = e.positions.length ∧
  e.timestamps.getD 0 0 = 0 ∧
  e.timestamps.Pairwise (· < ·) ∧
  ∀ p ∈ e.positions, p.length = (e.positions.getD 0 []).length

instance (e : Episode) : Decidable e.valid := by
  unfold Episode.valid; infer_instance

/-- Embeds `np.searchsorted(timestamps, t)` (default side `left`): for a
sorted list, the first index whose entry is `≥ t`, or the length when every
entry is `< t`. -/
def searchsorted (ts : List ℚ) (x : ℚ) : ℕ :=
  match ts with
  | [] => 0
  | t :: rest => if x ≤ t then 0 else searchsorted rest x + 1

/-- Elementwise `pos0 + (pos1 - pos0) * alpha` from the interpolation step of
`Replayer._get_target_position`. -/
def lerpList (p0 p1 : List ℚ) (a : ℚ) : List ℚ :=
  List.zipWith (fun x y => x + (y - x) * a) p0 p1

/-- The interpolation branch of `Replayer._get_target_position`: bracketing
frames `idx - 1` and `idx`, `alpha = (t - t0) / (t1 - t0)` guarded by
`t1 > t0` (else `0`). -/
def frameInterp (e : Episode) (idx : ℕ) (t : ℚ) : List ℚ :=
  lerpList (e.positions.getD (idx - 1) []) (e.positions.getD idx [])
    (if e.timestamps.getD (idx - 1) 0 < e.timestamps.getD idx 0 then
      (t - e.timestamps.getD (idx - 1) 0) /
        (e.timestamps.getD idx 0 - e.timestamps.getD (idx - 1) 0)
    else 0)

/-- Embeds `Replayer._get_target_position`: `None` (here `none`) signals the
end of playback, otherwise the target joint positions at `t` are returned. -/
def get_target_position (e : Episode) (t : ℚ) : Option (List ℚ) :=
  if t < 0 then some (e.positions.getD 0 [])
  else if e.timestamps.getLastD 0 < t then none
  else if searchsorted e.timestamps t = 0 then some (e.positions.getD 0 [])
  else if e.timestamps.length ≤ searchsorted e.timestamps t then
    some (e.positions.getLastD [])
  else some (frameInterp e (searchsorted e.timestamps t) t)

/-- A concrete valid episode used by the witnesses. -/
def ep1 : Episode :=
  { timestamps := [0, 1, 2]
    positions := [[0, 0], [2, 4], [6, 8]] }

/-! ## Transition easing (replay.py `_smooth_transition`,
music_replayer.py `_transition_to_position`)

Both loops compute `smooth_ratio = (1 - cos(ratio * pi)) / 2` with
`ratio = elapsed / duration` while `elapsed < duration`, then send the
literal target once the loop exits. -/

noncomputable section

/-- The cosine ease curve `(1 - cos(ratio * pi)) / 2`. -/
def smoothEase (ratio : ℝ) : ℝ := (1 - Real.cos (ratio * Real.pi)) / 2

/-- One loop iteration's command: elementwise
`start + (target - start) * smooth_ratio`. -/
def transitionPoseInLoop (elapsed duration : ℝ) (start target : List ℝ) : List ℝ :=
  List.zipWith (fun s g => s + (g - s) * smoothEase (elapsed / duration)) start target

/-- The pose commanded at a given elapsed time: the eased interpolation while
`elapsed < duration`, and the literal target sent after the loop exits. -/
def commandedTransitionPose (elapsed duration : ℝ) (start target : List ℝ) : List ℝ :=
  if elapsed < duration then transitionPoseInLoop elapsed duration start target
  else target

end

/-! ## Playback speed handling

`Replayer.__init__` stores `np.clip(playback_speed, 0.25, 2.0)` and
`Replayer.run` computes `playback_time = elapsed * self.playback_speed`;
`MusicReplayer._play_episode` computes `playback_time = elapsed *
playback_speed` from its raw argument instead. -/

/-- Embeds `np.clip(x, lo, hi)`. -/
def np_clip (x lo hi : ℚ) : ℚ := min (max x lo) hi

/-- The speed stored by `Replayer.__init__`. -/
def replayer_stored_speed (playback_speed : ℚ) : ℚ :=
  np_clip playback_speed (1/4) 2

/-- Wall-clock-to-playback-time mapping of the `Replayer.run` loop. -/
def replayer_playback_time (elapsed playback_speed : ℚ) : ℚ :=
  elapsed * replayer_stored_speed playback_speed

/-- Wall-clock-to-playback-time mapping of the `MusicReplayer._play_episode`
loop, which uses its raw `playback_speed` argument. -/
def music_playback_time (elapsed playback_speed : ℚ) : ℚ :=
  elapsed * playback_speed

/-! ## Python string primitives

Python strings are embedded as `List Char`; the following mirror the string
operations `parse_sequence` uses. -/

/-- Python `s.split('->')`: left-to-right scan cutting at each
non-overlapping occurrence of the two-character separator. -/
def splitArrow : List Char → List (List Char)
  | [] => [[]]
  | [c] => [[c]]
  | c1 :: c2 :: rest =>
    if c1 = '-' ∧ c2 = '>' then [] :: splitArrow rest
    else
      match splitArrow (c2 :: rest) with
      | [] => [[c1]]
      | g :: gs => (c1 :: g) :: gs

/-- Python `s.split(sep)` for a single-character separator. -/
def pysplitChar (sep : Char) : List Char → List (List Char)
  | [] => [[]]
  | c :: rest =>
    if c = sep then [] :: pysplitChar sep rest
    else
      match pysplitChar sep rest with
      | [] => [[c]]
      | g :: gs => (c :: g) :: gs

/-- The whitespace characters Python `str.strip` removes (ASCII subset). -/
def pyIsSpace (c : Char) : Bool :=
  c = ' ' ∨ c = '\t' ∨ c = '\n' ∨ c = '\r' ∨ c = '\x0b' ∨ c = '\x0c'

/-- Python `s.strip()`. -/
def pystrip (s : List Char) : List Char :=
  ((s.dropWhile pyIsSpace).reverse.dropWhile pyIsSpace).reverse

/-- Python `s.lower()` (ASCII subset, as used on note names). -/
def pylower (s : List Char) : List Char := s.map Char.toLower

/-! ## Note configuration (music_config.py) and sequence parsing
(music_replayer.py)

A note's configuration entry carries its hand, whether the episode file at
`episode_path` exists on disk (a filesystem fact the parser queries, folded
here into the configuration snapshot), and the truthiness of its
`recorded_at` field. -/

structure NoteInfo where
  hand : List Char
  episodePathExists : Bool
  recordedAt : Bool
  deriving DecidableEq

/-- The parts of `MusicConfig` that parsing and validation consult. -/
structure MusicConfig where
  notes : List (List Char × NoteInfo)
  note_durations : List (List Char × ℚ)
  deriving DecidableEq

/-- Dictionary lookup `config.notes[name]` (with membership test). -/
def MusicConfig.findNote (c : MusicConfig) (n : List Char) : Option NoteInfo :=
  (c.notes.find? (fun p => p.1 == n)).map (fun p => p.2)

/-- Dictionary lookup `config.note_durations[key]` (with membership test). -/
def lookupDur (tbl : List (List Char × ℚ)) (k : List Char) : Option ℚ :=
  (tbl.find? (fun p => p.1 == k)).map (fun p => p.2)

def MusicConfig.findDur (c : MusicConfig) (k : List Char) : Option ℚ :=
  lookupDur c.note_durations k

/-- Embeds `MusicConfig._calculate_durations`: the tempo table derived from
BPM via `beat_duration = 60.0 / tempo_bpm`. -/
def calculate_durations (tempo_bpm : ℚ) : List (List Char × ℚ) :=
  let beat_duration := 60 / tempo_bpm
  [("full".data, beat_duration * 4),
   ("half".data, beat_duration * 2),
   ("quarter".data, beat_duration * 1),
   ("eighth".data, beat_duration * (1/2)),
   ("sixteenth".data, beat_duration * (1/4)),
   ("quarter_dotted".data, beat_duration * (3/2)),
   ("half_dotted".data, beat_duration * 3)]

/-- Embeds the `NoteAction` class. -/
structure NoteAction where
  note : List Char
  hand : List Char
  duration : List Char
  duration_seconds : ℚ
  deriving DecidableEq

/-- The `is_rest` field computed by `NoteAction.__init__`. -/
def NoteAction.is_rest (n : NoteAction) : Bool := pylower n.note == "rest".data

/-- Python `max` over a non-empty list (`max` of the empty list raises,
which `parse_sequence` never triggers; `0` is a junk default). -/
def pymax : List ℚ → ℚ
  | [] => 0
  | x :: xs => xs.foldl max x

/-- Embeds the `ChordAction` class. -/
structure ChordAction where
  notes : List NoteAction
  duration_seconds : ℚ
  deriving DecidableEq

/-- Embeds `ChordAction.__init__`: the duration of the chord is the longest
note, `max(n.duration_seconds for n in notes)`. -/
def mkChordAction (notes : List NoteAction) : ChordAction :=
  { notes := notes
    duration_seconds := pymax (notes.map (fun n => n.duration_seconds)) }

/-- The distinct `ValueError`s `parse_sequence` can raise, in source order of
their checks. -/
inductive ParseErr where
  | formatErr (spec : List Char)
  | unknownNote (note : List Char)
  | missingEpisode (note : List Char)
  | invalidHand (hand : List Char)
  | handMismatch (note : List Char)
  | unknownDuration (dur : List Char)
  | noValidNotes
  deriving DecidableEq

/-- Embeds the per-note-spec body of `MusicReplayer.parse_sequence`: split on
colons, require exactly three fields, validate the note name, episode file,
hand and duration in source order, and build the `NoteAction`. -/
def parseNoteSpec (cfg : MusicConfig) (sp : List Char) : Except ParseErr NoteAction :=
  match pysplitChar ':' sp with
  | [a, b, c] =>
    let note_name := pystrip a
    let hand := pystrip b
    let duration := pystrip c
    let checks : Except ParseErr Unit :=
      if pylower note_name == "rest".data then Except.ok ()
      else
        match cfg.findNote note_name with
        | none => Except.error (ParseErr.unknownNote note_name)
        | some info =>
          if info.episodePathExists = false then
            Except.error (ParseErr.missingEpisode note_name)
          else if ¬(hand = "left".data ∨ hand = "right".data) then
            Except.error (ParseErr.invalidHand hand)
          else if hand ≠ info.hand then
            Except.error (ParseErr.handMismatch note_name)
          else Except.ok ()
    match checks with
    | Except.error e => Except.error e
    | Except.ok _ =>
      match cfg.findDur duration with
      | none => Except.error (ParseErr.unknownDuration duration)
      | some secs => Except.ok ⟨note_name, hand, duration, secs⟩
  | _ => Except.error (ParseErr.formatErr sp)

/-- The inner loop of `parse_sequence` over the `;`-separated note specs of
one group: stripped-empty specs are skipped, the first error aborts. -/
def parseNoteSpecs (cfg : MusicConfig) : List (List Char) → Except ParseErr (List NoteAction)
  | [] => Except.ok []
  | sp :: rest =>
    if pystrip sp = [] then parseNoteSpecs cfg rest
    else
      match parseNoteSpec cfg (pystrip sp) with
      | Except.error e => Except.error e
      | Except.ok na =>
        match parseNoteSpecs cfg rest with
        | Except.error e => Except.error e
        | Except.ok nas => Except.ok (na :: nas)

/-- The outer loop of `parse_sequence` over the `->`-separated groups:
stripped-empty groups are skipped, and a group whose note list comes back
empty contributes no `ChordAction`. -/
def parseGroups (cfg : MusicConfig) : List (List Char) → Except ParseErr (List ChordAction)
  | [] => Except.ok []
  | g :: rest =>
    if pystrip g = [] then parseGroups cfg rest
    else
      match parseNoteSpecs cfg (pysplitChar ';' (pystrip g)) with
      | Except.error e => Except.error e
      | Except.ok nas =>
        match parseGroups cfg rest with
        | Except.error e => Except.error e
        | Except.ok acts =>
          Except.ok (if nas = [] then acts else mkChordAction nas :: acts)

/-- Embeds `MusicReplayer.parse_sequence`: raises (`ValueError`) when no
valid note survives, otherwise returns the non-empty chord list. -/
def parse_sequence (cfg : MusicConfig) (s : String) : Except ParseErr (List ChordAction) :=
  match parseGroups cfg (splitArrow s.data) with
  | Except.error e => Except.error e
  | Except.ok acts =>
    if acts = [] then Except.error ParseErr.noValidNotes else Except.ok acts

/-- The property that no note-spec survives the empty-skipping of
`parse_sequence`: every group, after stripping, splits into specs that are
all empty after stripping. -/
def noSurvivingSpec (s : List Char) : Prop :=
  ∀ g ∈ splitArrow s, ∀ sp ∈ pysplitChar ';' (pystrip g), pystrip sp = []

instance (s : List Char) : Decidable (noSurvivingSpec s) := by
  unfold noSurvivingSpec; infer_instance

/-! ## Sequence validation (music_replayer.py `validate_sequence`) -/

/-- The `ValueError`s (and Python `KeyError`) `validate_sequence` can raise;
`idx` is the zero-based action index (reported as `idx + 1`). -/
inductive ValidateErr where
  | keyError (note : List Char)
  | episodeMissing (idx : ℕ) (note : List Char)
  | notRecorded (idx : ℕ) (note : List Char)
  deriving DecidableEq

/-- The inner loop of `validate_sequence` over one chord's notes: rests are
skipped; a missing episode file or an unrecorded note raises immediately. -/
def validateNotes (cfg : MusicConfig) (idx : ℕ) : List NoteAction → Except ValidateErr Unit
  | [] => Except.ok ()
  | n :: rest =>
    if n.is_rest then validateNotes cfg idx rest
    else
      match cfg.findNote n.note with
      | none => Except.error (ValidateErr.keyError n.note)
      | some info =>
        if info.episodePathExists = false then
          Except.error (ValidateErr.episodeMissing idx n.note)
        else if info.recordedAt = false then
          Except.error (ValidateErr.notRecorded idx n.note)
        else validateNotes cfg idx rest

/-- The outer loop of `validate_sequence` with running action index. -/
def validateFrom (cfg : MusicConfig) (idx : ℕ) : List ChordAction → Except ValidateErr Unit
  | [] => Except.ok ()
  | a :: rest =>
    match validateNotes cfg idx a.notes with
    | Except.error e => Except.error e
    | Except.ok _ => validateFrom cfg (idx + 1) rest

/-- Embeds `MusicReplayer.validate_sequence`. -/
def validate_sequence (cfg : MusicConfig) (actions : List ChordAction) : Except ValidateErr Unit :=
  validateFrom cfg 0 actions

/-! ## Concrete instances used by counterexamples and witnesses -/

/-- A configuration with two notes both assigned to the left hand, episodes
present; `recA`, `recB` and the quarter duration are arbitrary. -/
def cfgTwoLeft (recA recB : Bool) (q : ℚ) : MusicConfig :=
  { notes := [("A".data, ⟨"left".data, true, recA⟩),
              ("B".data, ⟨"left".data, true, recB⟩)]
    note_durations := [("quarter".data, q)] }

/-- Both notes left-handed, recorded, quarter note of half a second
(120 BPM). -/
def cfgAB : MusicConfig := cfgTwoLeft true true (1/2)

/-- A configuration with two problematic notes: the episode file of `X` is
missing and `Y` is not recorded. -/
def cfgBad : MusicConfig :=
  { notes := [("X".data, ⟨"left".data, false, true⟩),
              ("Y".data, ⟨"right".data, true, false⟩)]
    note_durations := [("quarter".data, 1/2)] }

/-- A compiled program touching both problematic notes of `cfgBad`. -/
def actsBad : List ChordAction :=
  [mkChordAction [⟨"X".data, "left".data, "quarter".data, 1/2⟩],
   mkChordAction [⟨"Y".data, "right".data, "quarter".data, 1/2⟩]]

/-- A small configuration for the parser witnesses: one left-hand note. -/
def cfgC10 : MusicConfig :=
  { notes := [("C1".data, ⟨"left".data, true, true⟩)]
    note_durations := [("quarter".data, 1/2), ("half".data, 1)] }

/-- A quarter note and a half note at 120 BPM, as chorded together. -/
def chordCD : List NoteAction :=
  [⟨"C".data, "left".data, "quarter".data, 1/2⟩,
   ⟨"D".data, "right".data, "half".data, 1⟩]

/-! ### List helper lemmas -/

theorem getD_get {α : Type} (l : List α) (d : α) (n : ℕ) (h : n < l.length) :
    l.getD n d = l.get ⟨n, h⟩ := by
  rw [List.getD_eq_getElem l d h, List.get_eq_getElem]

theorem getLastD_get {α : Type} (l : List α) (d : α) (h : l ≠ []) :
    l.getLastD d = l.get ⟨l.length - 1, by cases l with
      | nil => exact absurd rfl h
      | cons a t => simp⟩ := by
  induction l generalizing d with
  | nil => exact absurd rfl h
  | cons a t ih =>
    rw [List.getLastD_cons]
    cases t with
    | nil => rfl
    | cons b u =>
      rw [ih a (by simp)]
      simp [List.get]

theorem sorted_get_lt (l : List ℚ) (hs : l.Pairwise (· < ·)) (i j : Fin l.length)
    (hij : (i : ℕ) < (j : ℕ)) : l.get i < l.get j :=
  List.pairwise_iff_get.mp hs i j hij

theorem sorted_get_le (l : List ℚ) (hs : l.Pairwise (· < ·)) (i j : Fin l.length)
    (hij : (i : ℕ) ≤ (j : ℕ)) : l.get i ≤ l.get j := by
  rcases Nat.lt_or_ge (i : ℕ) (j : ℕ) with h | h
  · exact le_of_lt (sorted_get_lt l hs i j h)
  · have : (i : ℕ) = (j : ℕ) := le_antisymm hij h
    have : i = j := Fin.ext this
    subst this
    exact le_refl _

theorem zipWith_ext {f g : ℚ → ℚ → ℚ} (h : ∀ a b, f a b = g a b) :
    ∀ (l1 l2 : List ℚ), List.zipWith f l1 l2 = List.zipWith g l1 l2
  | [], _ => by simp
  | _ :: _, [] => by simp
  | a :: t, b :: u => by simp [h a b, zipWith_ext h t u]

theorem lerpList_one (p0 p1 : List ℚ) (h : p0.length = p1.length) :
    lerpList p0 p1 1 = p1 := by
  induction p0 generalizing p1 with
  | nil => cases p1 with
    | nil => rfl
    | cons b u => simp at h
  | cons a t ih =>
    cases p1 with
    | nil => simp at h
    | cons b u =>
      simp only [lerpList, List.zipWith_cons_cons] at *
      refine congrArg₂ _ (by ring) ?_
      exact ih u (by simpa using h)

/-! ### Facts about searchsorted on sorted timestamp lists -/

theorem searchsorted_get_zero (l : List ℚ) (h : 0 < l.length) :
    searchsorted l (l.get ⟨0, h⟩) = 0 := by
  cases l with
  | nil => simp at h
  | cons t rest => simp [searchsorted]

theorem searchsorted_succ (ts : List ℚ) (hs : ts.Pairwise (· < ·)) (x : ℚ) (i : ℕ)
    (h1 : i + 1 < ts.length) (h2 : ts.get ⟨i, by omega⟩ < x)
    (h3 : x ≤ ts.get ⟨i + 1, h1⟩) : searchsorted ts x = i + 1 := by
  induction ts generalizing i with
  | nil => simp at h1
  | cons t rest ih =>
    rcases List.pairwise_cons.mp hs with ⟨hhead, htail⟩
    cases i with
    | zero =>
      have hx : ¬ x ≤ t := not_le.mpr h2
      cases rest with
      | nil => simp at h1
      | cons r u =>
        have hr : x ≤ r := h3
        simp [searchsorted, hx, hr]
    | succ k =>
      have hk1 : k + 1 < rest.length := by simpa using h1
      have hgk : rest.get ⟨k, by omega⟩ < x := h2
      have ht : t < x :=
        lt_trans (hhead _ (List.get_mem rest k (by omega))) hgk
      have hx : ¬ x ≤ t := not_le.mpr ht
      simp only [searchsorted, if_neg hx]
      rw [ih htail k hk1 hgk h3]

/-! ### Episode validity consequences -/

theorem valid_get_nonneg (e : Episode) (hv : e.valid) (i : ℕ)
    (hi : i < e.timestamps.length) : 0 ≤ e.timestamps.get ⟨i, hi⟩ := by
  obtain ⟨hne, _, hfirst, hsort, _⟩ := hv
  have h0 : 0 < e.timestamps.length := by
    cases h : e.timestamps with
    | nil => exact absurd h hne
    | cons a t => simp [h]
  have : e.timestamps.get ⟨0, h0⟩ = 0 := by
    rw [← getD_get e.timestamps 0 0 h0]; exact hfirst
  calc (0 : ℚ) = e.timestamps.get ⟨0, h0⟩ := this.symm
    _ ≤ e.timestamps.get ⟨i, hi⟩ :=
        sorted_get_le _ hsort _ _ (Nat.zero_le i)

theorem valid_get_le_last (e : Episode) (hv : e.valid) (i : ℕ)
    (hi : i < e.timestamps.length) :
    e.timestamps.get ⟨i, hi⟩ ≤ e.timestamps.getLastD 0 := by
  obtain ⟨hne, _, _, hsort, _⟩ := hv
  rw [getLastD_get e.timestamps 0 hne]
  exact sorted_get_le _ hsort ⟨i, hi⟩ ⟨e.timestamps.length - 1, by omega⟩
    (show i ≤ e.timestamps.length - 1 by omega)

/-! ## Claim theorems -/

/-- C3: for every valid episode and frame index `i`, sampling
`Replayer._get_target_position` at the exact recorded timestamp of frame `i`
returns frame `i`'s position vector exactly, for every joint component. -/
theorem sample_exact_at_frame (e : Episode) (hv : e.valid) (i : ℕ)
    (hi : i < e.timestamps.length) :
    get_target_position e (e.timestamps.get ⟨i, hi⟩) =
      some (e.positions.get ⟨i, hv.2.1 ▸ hi⟩) := by
  have hv' := hv
  obtain ⟨hne, hlen, hfirst, hsort, hdim⟩ := hv'
  have hpos : i < e.positions.length := hlen ▸ hi
  have ht0 : 0 ≤ e.timestamps.get ⟨i, hi⟩ := valid_get_nonneg e hv i hi
  have htlast : e.timestamps.get ⟨i, hi⟩ ≤ e.timestamps.getLastD 0 :=
    valid_get_le_last e hv i hi
  unfold get_target_position
  rw [if_neg (not_lt.mpr ht0), if_neg (not_lt.mpr htlast)]
  cases i with
  | zero =>
    rw [if_pos (searchsorted_get_zero e.timestamps hi)]
    exact congrArg some (getD_get e.positions [] 0 hpos)
  | succ j =>
    have hj : j < e.timestamps.length := by omega
    have hjp : j < e.positions.length := by omega
    have hss : searchsorted e.timestamps (e.timestamps.get ⟨j + 1, hi⟩) = j + 1 :=
      searchsorted_succ e.timestamps hsort _ j hi
        (sorted_get_lt _ hsort ⟨j, hj⟩ ⟨j + 1, hi⟩ (show j < j + 1 by omega))
        (le_refl _)
    rw [hss, if_neg (by omega : ¬ (j + 1 = 0)),
      if_neg (by omega : ¬ (e.timestamps.length ≤ j + 1))]
    unfold frameInterp
    rw [show j + 1 - 1 = j from rfl,
      getD_get e.timestamps 0 j hj, getD_get e.timestamps 0 (j + 1) hi,
      getD_get e.positions [] j hjp, getD_get e.positions [] (j + 1) hpos]
    have hlt : e.timestamps.get ⟨j, hj⟩ < e.timestamps.get ⟨j + 1, hi⟩ :=
      sorted_get_lt _ hsort ⟨j, hj⟩ ⟨j + 1, hi⟩ (show j < j + 1 by omega)
    rw [if_pos hlt, div_self (sub_ne_zero.mpr (ne_of_gt hlt))]
    rw [lerpList_one _ _
      (by rw [hdim _ (List.get_mem _ _ _), hdim _ (List.get_mem _ _ _)])]

/-- Witness for C3: frame 1 of a concrete valid episode is returned exactly. -/
theorem sample_exact_at_frame_witness :
    ep1.valid ∧
    get_target_position ep1 (ep1.timestamps.get ⟨1, by decide⟩) =
      some (ep1.positions.get ⟨1, by decide⟩) :=
  ⟨by decide, sample_exact_at_frame ep1 (by decide) 1 (by decide)⟩

/-- C4: for every valid episode, sampling strictly after the last frame's
timestamp returns the `Finished` sentinel (`none`), and sampling at or
before it always returns a position. -/
theorem sample_past_end_finished (e : Episode) (hv : e.valid) (t : ℚ) :
    (e.timestamps.getLastD 0 < t → get_target_position e t = none) ∧
    (t ≤ e.timestamps.getLastD 0 → (get_target_position e t).isSome = true) := by
  have hv' := hv
  obtain ⟨hne, hlen, hfirst, hsort, hdim⟩ := hv'
  have h0 : 0 < e.timestamps.length := List.length_pos.mpr hne
  constructor
  · intro h
    have h1 : 0 ≤ e.timestamps.get ⟨0, h0⟩ := valid_get_nonneg e hv 0 h0
    have h2 : e.timestamps.get ⟨0, h0⟩ ≤ e.timestamps.getLastD 0 :=
      valid_get_le_last e hv 0 h0
    have hnn : ¬ t < 0 := by linarith
    unfold get_target_position
    rw [if_neg hnn, if_pos h]
  · intro h
    unfold get_target_position
    by_cases hneg : t < 0
    · rw [if_pos hneg]; rfl
    · rw [if_neg hneg, if_neg (not_lt.mpr h)]
      by_cases h1 : searchsorted e.timestamps t = 0
      · rw [if_pos h1]; rfl
      · rw [if_neg h1]
        by_cases h2 : e.timestamps.length ≤ searchsorted e.timestamps t
        · rw [if_pos h2]; rfl
        · rw [if_neg h2]; rfl

/-- Witness for C4: past-the-end sampling of a concrete episode is `none`,
sampling at the last timestamp is a position. -/
theorem sample_past_end_finished_witness :
    ep1.valid ∧ get_target_position ep1 5 = none ∧
      (get_target_position ep1 2).isSome = true :=
  ⟨by decide,
   (sample_past_end_finished ep1 (by decide) 5).1 (by decide),
   (sample_past_end_finished ep1 (by decide) 2).2 (by decide)⟩

/-- C9: for every valid episode and consecutive frames `i`, `i+1`, sampling
at the exact midpoint of their timestamps returns the elementwise arithmetic
mean of their positions. -/
theorem sample_midpoint_mean (e : Episode) (hv : e.valid) (i : ℕ)
    (hi : i + 1 < e.timestamps.length) :
    get_target_position e
        ((e.timestamps.get ⟨i, by omega⟩ + e.timestamps.get ⟨i + 1, hi⟩) / 2) =
      some (List.zipWith (fun a b => (a + b) / 2)
        (e.positions.get ⟨i, hv.2.1 ▸ (Nat.lt_of_succ_lt hi)⟩)
        (e.positions.get ⟨i + 1, hv.2.1 ▸ hi⟩)) := by
  have hv' := hv
  obtain ⟨hne, hlen, hfirst, hsort, hdim⟩ := hv'
  have hj : i < e.timestamps.length := by omega
  have hjp : i < e.positions.length := by omega
  have hip : i + 1 < e.positions.length := by omega
  have hlt : e.timestamps.get ⟨i, hj⟩ < e.timestamps.get ⟨i + 1, hi⟩ :=
    sorted_get_lt _ hsort ⟨i, hj⟩ ⟨i + 1, hi⟩ (show i < i + 1 by omega)
  have h0i : 0 ≤ e.timestamps.get ⟨i, hj⟩ := valid_get_nonneg e hv i hj
  have hmid1 : e.timestamps.get ⟨i, hj⟩ <
      (e.timestamps.get ⟨i, hj⟩ + e.timestamps.get ⟨i + 1, hi⟩) / 2 := by linarith
  have hmid2 : (e.timestamps.get ⟨i, hj⟩ + e.timestamps.get ⟨i + 1, hi⟩) / 2 <
      e.timestamps.get ⟨i + 1, hi⟩ := by linarith
  have hle : (e.timestamps.get ⟨i, hj⟩ + e.timestamps.get ⟨i + 1, hi⟩) / 2 ≤
      e.timestamps.getLastD 0 :=
    le_trans (le_of_lt hmid2) (valid_get_le_last e hv (i + 1) hi)
  have hnn : ¬ (e.timestamps.get ⟨i, hj⟩ + e.timestamps.get ⟨i + 1, hi⟩) / 2 < 0 := by
    linarith
  have hss : searchsorted e.timestamps
      ((e.timestamps.get ⟨i, hj⟩ + e.timestamps.get ⟨i + 1, hi⟩) / 2) = i + 1 :=
    searchsorted_succ e.timestamps hsort _ i hi hmid1 (le_of_lt hmid2)
  unfold get_target_position
  rw [if_neg hnn, if_neg (not_lt.mpr hle), hss,
    if_neg (by omega : ¬ (i + 1 = 0)),
    if_neg (by omega : ¬ (e.timestamps.length ≤ i + 1))]
  unfold frameInterp
  rw [show i + 1 - 1 = i from rfl,
    getD_get e.timestamps 0 i hj, getD_get e.timestamps 0 (i + 1) hi,
    getD_get e.positions [] i hjp, getD_get e.positions [] (i + 1) hip,
    if_pos hlt]
  have halpha : ((e.timestamps.get ⟨i, hj⟩ + e.timestamps.get ⟨i + 1, hi⟩) / 2 -
      e.timestamps.get ⟨i, hj⟩) /
      (e.timestamps.get ⟨i + 1, hi⟩ - e.timestamps.get ⟨i, hj⟩) = 1 / 2 := by
    have hd : e.timestamps.get ⟨i + 1, hi⟩ - e.timestamps.get ⟨i, hj⟩ ≠ 0 :=
      sub_ne_zero.mpr (ne_of_gt hlt)
    rw [div_eq_div_iff hd two_ne_zero]
    ring
  rw [halpha]
  have hz : lerpList (e.positions.get ⟨i, hjp⟩) (e.positions.get ⟨i + 1, hip⟩)
      (1 / 2) = List.zipWith (fun a b => (a + b) / 2)
      (e.positions.get ⟨i, hjp⟩) (e.positions.get ⟨i + 1, hip⟩) := by
    unfold lerpList
    exact zipWith_ext (fun a b => by ring) _ _
  rw [hz]

/-- Witness for C9: midpoint sampling between frames 0 and 1 of a concrete
episode returns their mean. -/
theorem sample_midpoint_mean_witness :
    ep1.valid ∧
    get_target_position ep1
        ((ep1.timestamps.get ⟨0, by decide⟩ + ep1.timestamps.get ⟨1, by decide⟩) / 2) =
      some (List.zipWith (fun a b => (a + b) / 2)
        (ep1.positions.get ⟨0, by decide⟩) (ep1.positions.get ⟨1, by decide⟩)) :=
  ⟨by decide, sample_midpoint_mean ep1 (by decide) 0 (by decide)⟩

/-- The cosine ease curve vanishes at ratio zero. -/
theorem smoothEase_zero : smoothEase 0 = 0 := by
  unfold smoothEase
  rw [zero_mul, Real.cos_zero]
  norm_num

/-- zipWith of the left projection returns the first list when lengths
agree. -/
theorem zipWith_left {α : Type} :
    ∀ (s g : List α), s.length = g.length →
      List.zipWith (fun a _ => a) s g = s
  | [], [], _ => rfl
  | [], _ :: _, h => by simp at h
  | _ :: _, [], h => by simp at h
  | a :: t, b :: u, h => by
    simp only [List.zipWith_cons_cons]
    rw [zipWith_left t u (by simpa using h)]

/-- C6: the eased transition commands exactly the start pose at
`elapsed = 0` and the literal target pose at every `elapsed >= duration`. -/
theorem transition_endpoints (duration : ℝ) (hT : 0 < duration)
    (start target : List ℝ) (hl : start.length = target.length) :
    commandedTransitionPose 0 duration start target = start ∧
    ∀ elapsed, duration ≤ elapsed →
      commandedTransitionPose elapsed duration start target = target := by
  constructor
  · unfold commandedTransitionPose
    rw [if_pos hT]
    unfold transitionPoseInLoop
    simp only [zero_div, smoothEase_zero, mul_zero, add_zero]
    exact zipWith_left start target hl
  · intro elapsed h
    unfold commandedTransitionPose
    rw [if_neg (not_lt.mpr h)]

/-- Witness for C6 at a concrete transition. -/
theorem transition_endpoints_witness :
    (0:ℝ) < 1 ∧ ([0, 0] : List ℝ).length = ([1, 2] : List ℝ).length ∧
    commandedTransitionPose 0 1 [0, 0] [1, 2] = [0, 0] ∧
    commandedTransitionPose 5 1 [0, 0] [1, 2] = [1, 2] :=
  ⟨by norm_num, rfl,
   (transition_endpoints 1 (by norm_num) [0, 0] [1, 2] rfl).1,
   (transition_endpoints 1 (by norm_num) [0, 0] [1, 2] rfl).2 5 (by norm_num)⟩

/-- C7: for every positive BPM, the tempo table holds exactly
`quarter = 60/BPM`, `half = 2 x quarter`, `eighth = quarter / 2`,
`sixteenth = quarter / 4`, `quarter_dotted = 1.5 x quarter` and
`half_dotted = 3 x quarter`. -/
theorem tempo_table (bpm : ℚ) (h : 0 < bpm) :
    lookupDur (calculate_durations bpm) "quarter".data = some (60 / bpm) ∧
    lookupDur (calculate_durations bpm) "half".data = some (2 * (60 / bpm)) ∧
    lookupDur (calculate_durations bpm) "eighth".data = some ((1/2) * (60 / bpm)) ∧
    lookupDur (calculate_durations bpm) "sixteenth".data = some ((1/4) * (60 / bpm)) ∧
    lookupDur (calculate_durations bpm) "quarter_dotted".data = some ((3/2) * (60 / bpm)) ∧
    lookupDur (calculate_durations bpm) "half_dotted".data = some (3 * (60 / bpm)) := by
  refine ⟨?_, ?_, ?_, ?_, ?_, ?_⟩
  · show some (60 / bpm * 1) = some (60 / bpm)
    exact congrArg some (by ring)
  · show some (60 / bpm * 2) = some (2 * (60 / bpm))
    exact congrArg some (by ring)
  · show some (60 / bpm * (1/2)) = some ((1/2) * (60 / bpm))
    exact congrArg some (by ring)
  · show some (60 / bpm * (1/4)) = some ((1/4) * (60 / bpm))
    exact congrArg some (by ring)
  · show some (60 / bpm * (3/2)) = some ((3/2) * (60 / bpm))
    exact congrArg some (by ring)
  · show some (60 / bpm * 3) = some (3 * (60 / bpm))
    exact congrArg some (by ring)

/-- Witness for C7 at 120 BPM: quarter is half a second, half a full second,
eighth a quarter second. -/
theorem tempo_table_witness :
    (0:ℚ) < 120 ∧
    lookupDur (calculate_durations 120) "quarter".data = some (1/2) ∧
    lookupDur (calculate_durations 120) "half".data = some 1 ∧
    lookupDur (calculate_durations 120) "eighth".data = some (1/4) := by
  have h := tempo_table 120 (by norm_num)
  refine ⟨by norm_num, ?_, ?_, ?_⟩
  · rw [h.1]; norm_num
  · rw [h.2.1]; norm_num
  · rw [h.2.2.1]; norm_num

/-- The starting accumulator is a lower bound of a left max fold, and so is
every list element. -/
theorem le_foldl_max (xs : List ℚ) : ∀ x : ℚ,
    x ≤ xs.foldl max x ∧ ∀ d ∈ xs, d ≤ xs.foldl max x := by
  induction xs with
  | nil => intro x; simp
  | cons y ys ih =>
    intro x
    constructor
    · calc x ≤ max x y := le_max_left _ _
        _ ≤ ys.foldl max (max x y) := (ih (max x y)).1
    · intro d hd
      rcases List.mem_cons.mp hd with rfl | hmem
      · calc d ≤ max x d := le_max_right _ _
          _ ≤ ys.foldl max (max x d) := (ih (max x d)).1
      · exact (ih (max x y)).2 d hmem

/-- A left max fold returns the accumulator or one of the elements. -/
theorem foldl_max_mem (xs : List ℚ) : ∀ x : ℚ, xs.foldl max x ∈ x :: xs := by
  induction xs with
  | nil => intro x; simp
  | cons y ys ih =>
    intro x
    have h := ih (max x y)
    rcases List.mem_cons.mp h with he | hmem
    · rcases max_choice x y with hm | hm
      · rw [List.foldl_cons, he, hm]; exact List.mem_cons_self _ _
      · rw [List.foldl_cons, he, hm]
        exact List.mem_cons_of_mem _ (List.mem_cons_self _ _)
    · rw [List.foldl_cons]
      exact List.mem_cons_of_mem _ (List.mem_cons_of_mem _ hmem)

/-- C8: the duration of a chord built from a non-empty note list is the
maximum of its notes' durations. -/
theorem chord_duration_is_max (notes : List NoteAction) (h : notes ≠ []) :
    (mkChordAction notes).duration_seconds ∈
      notes.map (fun n => n.duration_seconds) ∧
    ∀ d ∈ notes.map (fun n => n.duration_seconds),
      d ≤ (mkChordAction notes).duration_seconds := by
  cases notes with
  | nil => exact absurd rfl h
  | cons n ns =>
    unfold mkChordAction pymax
    simp only [List.map_cons]
    constructor
    · exact foldl_max_mem _ _
    · intro d hd
      rcases List.mem_cons.mp hd with rfl | hmem
      · exact (le_foldl_max _ _).1
      · exact (le_foldl_max _ _).2 d hmem

/-- Witness for C8: a quarter-plus-half chord lasts the half note's full
second. -/
theorem chord_duration_is_max_witness :
    chordCD ≠ [] ∧
    (mkChordAction chordCD).duration_seconds = 1 ∧
    (mkChordAction chordCD).duration_seconds ∈
      chordCD.map (fun n => n.duration_seconds) ∧
    ∀ d ∈ chordCD.map (fun n => n.duration_seconds),
      d ≤ (mkChordAction chordCD).duration_seconds :=
  ⟨by decide,
   by
    show max (1/2 : ℚ) 1 = 1
    norm_num,
   (chord_duration_is_max chordCD (by decide)).1,
   (chord_duration_is_max chordCD (by decide)).2⟩

/-- C5 counterexample: the music playback path multiplies elapsed wall-clock
time by the raw speed argument, so a speed of 4 — outside the claimed band
[0.25, 2.0] — is used as-is. -/
theorem music_speed_unclamped :
    music_playback_time 1 4 = 1 * 4 ∧ ¬ ((4:ℚ) ≤ 2) :=
  ⟨rfl, by norm_num⟩

/-- C5 (amended): `Replayer` clamps its stored speed into [0.25, 2.0] and its
own run loop uses the clamped value, but `MusicReplayer._play_episode` maps
wall-clock to playback time with the raw, unclamped speed argument. -/
theorem replayer_speed_clamped (elapsed playback_speed : ℚ) :
    1/4 ≤ replayer_stored_speed playback_speed ∧
    replayer_stored_speed playback_speed ≤ 2 ∧
    replayer_playback_time elapsed playback_speed =
      elapsed * replayer_stored_speed playback_speed ∧
    music_playback_time elapsed playback_speed = elapsed * playback_speed := by
  refine ⟨?_, ?_, rfl, rfl⟩
  · unfold replayer_stored_speed np_clip
    exact le_min (le_trans (le_max_right _ _) (le_refl _)) (by norm_num)
  · unfold replayer_stored_speed np_clip
    exact min_le_right _ _

/-- C1 counterexample: with both notes configured for the left hand, the
sequence parses into a single two-note chord — nothing is raised. -/
theorem hand_collision_not_raised :
    parse_sequence cfgAB "A:left:quarter;B:left:quarter" =
      Except.ok [mkChordAction [⟨"A".data, "left".data, "quarter".data, 1/2⟩,
                                ⟨"B".data, "left".data, "quarter".data, 1/2⟩]] ∧
    (cfgAB.findNote "A".data).map NoteInfo.hand = some "left".data ∧
    (cfgAB.findNote "B".data).map NoteInfo.hand = some "left".data :=
  ⟨rfl, rfl, rfl⟩

/-- C1 (amended): `parse_sequence` performs no hand-collision check: a group
whose two note specs each validate individually parses into one chord even
though both notes carry the same configured hand. -/
theorem parse_same_hand_group_ok (recA recB : Bool) (q : ℚ) :
    ((cfgTwoLeft recA recB q).findNote "A".data).map NoteInfo.hand =
      some "left".data ∧
    ((cfgTwoLeft recA recB q).findNote "B".data).map NoteInfo.hand =
      some "left".data ∧
    parse_sequence (cfgTwoLeft recA recB q) "A:left:quarter;B:left:quarter" =
      Except.ok [mkChordAction [⟨"A".data, "left".data, "quarter".data, q⟩,
                                ⟨"B".data, "left".data, "quarter".data, q⟩]] :=
  ⟨rfl, rfl, rfl⟩

/-- C2 counterexample: with two distinct problems in the program (missing
episode for `X`, unrecorded `Y`), validation reports only the first. -/
theorem validate_first_error_only :
    validate_sequence cfgBad actsBad =
      Except.error (ValidateErr.episodeMissing 0 "X".data) ∧
    (cfgBad.findNote "Y".data).map NoteInfo.recordedAt = some false :=
  ⟨rfl, rfl⟩

/-- C2 (amended): pre-flight validation fails fast: an error on the first
chord's notes is returned unchanged no matter what problems follow. -/
theorem validate_fail_fast (cfg : MusicConfig) (a : ChordAction)
    (rest : List ChordAction) (e : ValidateErr)
    (h : validateNotes cfg 0 a.notes = Except.error e) :
    validate_sequence cfg (a :: rest) = Except.error e := by
  simp only [validate_sequence, validateFrom, h]

/-- Witness for C2 (amended) on a concrete failing program. -/
theorem validate_fail_fast_witness :
    validateNotes cfgBad 0
        (mkChordAction [⟨"X".data, "left".data, "quarter".data, 1/2⟩]).notes =
      Except.error (ValidateErr.episodeMissing 0 "X".data) ∧
    validate_sequence cfgBad actsBad =
      Except.error (ValidateErr.episodeMissing 0 "X".data) :=
  ⟨rfl, validate_fail_fast cfgBad
    (mkChordAction [⟨"X".data, "left".data, "quarter".data, 1/2⟩])
    [mkChordAction [⟨"Y".data, "right".data, "quarter".data, 1/2⟩]]
    (ValidateErr.episodeMissing 0 "X".data) rfl⟩

/-- A note-spec list that is entirely skipped parses to the empty note
list. -/
theorem parseNoteSpecs_all_empty (cfg : MusicConfig) :
    ∀ l, (∀ sp ∈ l, pystrip sp = []) →
      parseNoteSpecs cfg l = Except.ok [] := by
  intro l
  induction l with
  | nil => intro _; rfl
  | cons sp rest ih =>
    intro h
    have hsp : pystrip sp = [] := h sp (List.mem_cons_self _ _)
    simp only [parseNoteSpecs, if_pos hsp]
    exact ih fun x hx => h x (List.mem_cons_of_mem _ hx)

/-- A group list whose specs are all skipped parses to the empty program. -/
theorem parseGroups_all_empty (cfg : MusicConfig) :
    ∀ l, (∀ g ∈ l, ∀ sp ∈ pysplitChar ';' (pystrip g), pystrip sp = []) →
      parseGroups cfg l = Except.ok [] := by
  intro l
  induction l with
  | nil => intro _; rfl
  | cons g rest ih =>
    intro h
    have hrest : parseGroups cfg rest = Except.ok [] :=
      ih fun x hx => h x (List.mem_cons_of_mem _ hx)
    by_cases hg : pystrip g = []
    · simp only [parseGroups, if_pos hg]
      exact hrest
    · have hns : parseNoteSpecs cfg (pysplitChar ';' (pystrip g)) = Except.ok [] :=
        parseNoteSpecs_all_empty cfg _ (h g (List.mem_cons_self _ _))
      simp only [parseGroups, if_neg hg, hns, hrest]
      simp

/-- Every chord a successful group parse returns holds a non-empty note
list. -/
theorem parseGroups_chords_nonempty (cfg : MusicConfig) :
    ∀ (l : List (List Char)) (acts : List ChordAction),
      parseGroups cfg l = Except.ok acts → ∀ ch ∈ acts, ch.notes ≠ [] := by
  intro l
  induction l with
  | nil =>
    intro acts h ch hch
    simp only [parseGroups] at h
    cases h
    simp at hch
  | cons g rest ih =>
    intro acts h
    by_cases hg : pystrip g = []
    · simp only [parseGroups, if_pos hg] at h
      exact ih acts h
    · simp only [parseGroups, if_neg hg] at h
      cases hns : parseNoteSpecs cfg (pysplitChar ';' (pystrip g)) with
      | error e => rw [hns] at h; cases h
      | ok nas =>
        rw [hns] at h
        dsimp only at h
        cases hrest : parseGroups cfg rest with
        | error e => rw [hrest] at h; cases h
        | ok acts' =>
          rw [hrest] at h
          dsimp only at h
          by_cases hnas : nas = []
          · rw [if_pos hnas] at h
            cases h
            exact ih _ hrest
          · rw [if_neg hnas] at h
            cases h
            intro ch hch
            rcases List.mem_cons.mp hch with rfl | hmem
            · simpa [mkChordAction] using hnas
            · exact ih acts' hrest ch hmem

/-- C10: `parse_sequence` never returns an empty program: a successful parse
yields a non-empty chord list whose chords all hold notes, and an input in
which no note-spec survives the empty-skipping raises the
no-valid-notes `ValueError`. -/
theorem parse_never_empty (cfg : MusicConfig) (s : String) :
    (∀ acts, parse_sequence cfg s = Except.ok acts →
      acts ≠ [] ∧ ∀ ch ∈ acts, ch.notes ≠ []) ∧
    (noSurvivingSpec s.data →
      parse_sequence cfg s = Except.error ParseErr.noValidNotes) ∧
    (∀ g rest, pystrip g = [] →
      parseGroups cfg (g :: rest) = parseGroups cfg rest) ∧
    (∀ sp rest, pystrip sp = [] →
      parseNoteSpecs cfg (sp :: rest) = parseNoteSpecs cfg rest) := by
  refine ⟨?_, ?_, ?_, ?_⟩
  · intro acts h
    unfold parse_sequence at h
    cases hpg : parseGroups cfg (splitArrow s.data) with
    | error e => rw [hpg] at h; cases h
    | ok acts' =>
      rw [hpg] at h
      dsimp only at h
      by_cases he : acts' = []
      · rw [if_pos he] at h; cases h
      · rw [if_neg he] at h
        cases h
        exact ⟨he, parseGroups_chords_nonempty cfg _ _ hpg⟩
  · intro hns
    unfold parse_sequence
    rw [parseGroups_all_empty cfg _ hns]
    rfl
  · intro g rest hg
    simp only [parseGroups, if_pos hg]
  · intro sp rest hsp
    simp only [parseNoteSpecs, if_pos hsp]

/-- Witness for C10: a one-note sequence parses non-empty; a separator-only
sequence raises the no-valid-notes error; a whitespace-only group and
note-spec are skipped. -/
theorem parse_never_empty_witness :
    (([mkChordAction [⟨"C1".data, "left".data, "quarter".data, 1/2⟩]] :
        List ChordAction) ≠ [] ∧
      ∀ ch ∈ ([mkChordAction [⟨"C1".data, "left".data, "quarter".data, 1/2⟩]] :
        List ChordAction), ch.notes ≠ []) ∧
    parse_sequence cfgC10 " -> ; -> " = Except.error ParseErr.noValidNotes ∧
    parseGroups cfgC10 [" ".data, "C1:left:quarter".data] =
      parseGroups cfgC10 ["C1:left:quarter".data] ∧
    parseNoteSpecs cfgC10 [" ".data, "C1:left:quarter".data] =
      parseNoteSpecs cfgC10 ["C1:left:quarter".data] :=
  ⟨(parse_never_empty cfgC10 "C1:left:quarter").1 _ rfl,
   (parse_never_empty cfgC10 " -> ; -> ").2.1 (by decide),
   (parse_never_empty cfgC10 "x").2.2.1 " ".data ["C1:left:quarter".data] (by decide),
   (parse_never_empty cfgC10 "x").2.2.2 " ".data ["C1:left:quarter".data] (by decide)⟩

end G1RR
